import Mathlib

/-!
Verification of the go-diskring ring buffer (package diskring).

The embedding models the current version of the code: the `Ring` struct of
ring.go with the options of part_001, `Write` from syscall.go (lines 88-120),
`Read` from read.go (lines 76-94), and `advanceHead` / `len` / `freeBytes` /
`empty` from alloc.go.  The mirror map (two `MAP_FIXED` mappings of the same
N-byte data region placed back to back) is modelled by addressing the data
region modulo N: the byte at virtual offset `v` of `r.buf` aliases file byte
`v % N`, which is exactly the aliasing the double mapping produces.  Machine
words (`uintptr`, 8 bytes on the 64-bit hosts the spec scenarios assume) are
stored as 8 little-endian bytes; uintptr additions that can exceed 2 ^ 64 are
reduced modulo 2 ^ 64 exactly where Go wraps them.
-/

namespace Diskring

/-- `uintptrSize = unsafe.Sizeof(uintptr(0))` on a 64-bit host (alloc.go). -/
def uintptrSize : Nat := 8

/-- `syscall.Getpagesize()` on the platforms the spec scenarios use. -/
def pageSize : Nat := 4096

/-- The ring state: `size` is N (bytes of the data region), `data` holds the
byte stored at each file offset in `[0, N)` (the mirror map makes virtual
offset `v` alias file offset `v % N`), `head`/`tail` are the cursor pair, and
the three flags come from the `Ring` struct of part_001.  The mutex and the
unbuffered `wakeup` channel have no sequential state and are not represented:
a non-blocking send on `wakeup` either hands the token to a waiting reader or
is dropped, leaving the ring state unchanged either way. -/
structure Ring where
  size : Nat
  data : Nat → Nat
  head : Nat
  tail : Nat
  readOnly : Bool
  dontBlockReads : Bool
  blockWrites : Bool

/-- `copy(r.buf[pos:], bs)` through the mirror map: byte `i` of `bs` lands at
file offset `(pos + i) % N`.  For `bs.length ≤ N` (always the case here, the
quarter-ring cap bounds every copy by `N/4`) the target offsets are distinct,
and file offset `j` receives `bs[i]` exactly when `i = (j - pos) mod N` is
below the length.  Bytes are reduced modulo 256. -/
def writeRange (N : Nat) (d : Nat → Nat) (pos : Nat) (bs : List Nat) : Nat → Nat :=
  fun j =>
    let i := (j + N - pos % N) % N
    if i < bs.length then bs.getD i 0 % 256 else d j

/-- The `len`-byte span of the mirror map starting at virtual offset `pos`:
byte `i` is the file byte at `(pos + i) % N`. -/
def readBytes (N : Nat) (d : Nat → Nat) (pos len : Nat) : List Nat :=
  (List.range len).map (fun i => d ((pos + i) % N) % 256)

/-- Little-endian byte decomposition of a machine word (`k` bytes). -/
def natToBytes : Nat → Nat → List Nat
  | 0, _ => []
  | k + 1, w => w % 256 :: natToBytes k (w / 256)

/-- Reassemble a little-endian byte list into a number. -/
def bytesToNat : List Nat → Nat
  | [] => 0
  | b :: bs => b % 256 + 256 * bytesToNat bs

/-- `*(*uintptr)(unsafe.Pointer(&r.buf[pos]))` (read): the aligned machine
word formed by the 8 bytes at virtual offsets `pos .. pos+7`. -/
def readWord (N : Nat) (d : Nat → Nat) (pos : Nat) : Nat :=
  bytesToNat (readBytes N d pos uintptrSize)

/-- `*(*uintptr)(unsafe.Pointer(&r.buf[pos])) = w` (store). -/
def writeWord (N : Nat) (d : Nat → Nat) (pos w : Nat) : Nat → Nat :=
  writeRange N d pos (natToBytes uintptrSize w)

/-- `func (r *Ring) len() uintptr` (alloc.go lines 72-88), the exact case
split of the source. -/
def Ring.len (r : Ring) : Nat :=
  if r.head > r.tail then (r.size - r.head) + r.tail
  else if r.head < r.tail then r.tail - r.head
  else 0

/-- `func (r *Ring) freeBytes() uintptr` (alloc.go lines 64-66). -/
def Ring.freeBytes (r : Ring) : Nat := r.size - r.len

/-- `func (r *Ring) empty() bool` (alloc.go). -/
def Ring.empty (r : Ring) : Bool := r.len == 0

/-- The error `advanceHead` returns on an empty ring is `io.EOF`; the spec
calls it `Empty`. -/
inductive AdvErr where
  | eof
deriving DecidableEq

/-- `func (r *Ring) advanceHead() error` (alloc.go lines 43-50).  The Go
additions are on `uintptr` and wrap modulo 2 ^ 64 before the reduction
modulo `r.size`. -/
def Ring.advanceHead (r : Ring) : Except AdvErr Ring :=
  if r.len = 0 then .error .eof
  else
    let length := readWord r.size r.data r.head
    .ok { r with head := ((r.head + length + uintptrSize) % 2 ^ 64) % r.size }

/-- Outcome of `func (r *Ring) Read(buf []byte) (int, error)` (read.go lines
76-94).  `blocked` is the empty-ring branch: the goroutine releases the mutex
and blocks receiving on `r.wakeup`, so the call does not return on its own.
`panicked` is the slice bounds violation raised when a (corrupt) length word
makes `head+8+length` exceed the 2N-byte mapping.  `okEOF` is the
(unreachable) branch where `advanceHead` fails after a successful copy. -/
inductive ReadResult where
  | blocked
  | bufferTooSmall (r : Ring)
  | panicked
  | ok (n : Nat) (bytes : List Nat) (r : Ring)
  | okEOF (n : Nat) (bytes : List Nat) (r : Ring)

/-- Value of `int(x)` for a `uintptr` `x`: two-complement reinterpretation of
the low 64 bits. -/
def int64OfWord (x : Nat) : Int :=
  if x % 2 ^ 64 < 2 ^ 63 then ((x % 2 ^ 64 : Nat) : Int)
  else ((x % 2 ^ 64 : Nat) : Int) - 2 ^ 64

/-- `func (r *Ring) Read(buf []byte) (int, error)`, read.go lines 76-94.
The buffer only matters through its length.  Note the source has no
`io.EOF` return and never consults `dontBlockReads`: an empty ring always
blocks on the wakeup channel. -/
def Ring.Read (r : Ring) (bufLen : Nat) : ReadResult :=
  if r.len = 0 then .blocked
  else
    let length := readWord r.size r.data r.head
    if (bufLen : Int) < int64OfWord length then .bufferTooSmall r
    else if 2 * r.size < r.head + uintptrSize + length then .panicked
    else
      let m := min bufLen length
      let bytes := readBytes r.size r.data (r.head + uintptrSize) m
      match r.advanceHead with
      | .ok r2 => .ok m bytes r2
      | .error _ => .okEOF m bytes r

/-- Outcome of `func (r *Ring) Write(buf []byte) (int, error)` (syscall.go
lines 88-120).  Failure constructors carry the ring state at return so that
"does not mutate" claims are expressible.  `diverge` marks the garbage states
on which the Go room-making loop never terminates (the model bounds it by
fuel; on every state the claims touch the loop exits early). -/
inductive WriteResult where
  | readOnlyErr (r : Ring)
  | tooLarge (r : Ring)
  | eofErr (r : Ring)
  | diverge
  | ok (n : Nat) (r : Ring)

/-- Outcome of the room-making loop inside `Write`. -/
inductive RoomResult where
  | fuelOut
  | eofErr (r : Ring)
  | ok (r : Ring)

/-- The `for { if blen+uintptrSize > r.freeBytes() { advanceHead; continue };
break }` loop of `Write`, with fuel to make it total. -/
def makeRoom (need : Nat) : Nat → Ring → RoomResult
  | 0, _ => .fuelOut
  | fuel + 1, r =>
    if need > r.freeBytes then
      match r.advanceHead with
      | .error _ => .eofErr r
      | .ok r2 => makeRoom need fuel r2
    else .ok r

/-- `func (r *Ring) Write(buf []byte) (int, error)`, syscall.go lines 88-120:
read-only check, quarter-ring cap (`len(buf) > int(r.size/4)`; `r.size/4`
fits in 62 bits so the `int` conversion is exact), room-making loop, payload
copy at `tail+uintptrSize`, length-word store at `tail`, tail bump modulo the
word size and then the ring size, non-blocking wakeup (no state), return of
the copied byte count `m = min(len(buf), 2N-(tail+8))`. -/
def Ring.Write (r : Ring) (payload : List Nat) : WriteResult :=
  if r.readOnly then .readOnlyErr r
  else if payload.length > r.size / 4 then .tooLarge r
  else
    match makeRoom (payload.length + uintptrSize) (r.size + 1) r with
    | .fuelOut => .diverge
    | .eofErr r2 => .eofErr r2
    | .ok r2 =>
      let m := min payload.length (2 * r2.size - (r2.tail + uintptrSize))
      let d1 := writeRange r2.size r2.data (r2.tail + uintptrSize) (payload.take m)
      let d2 := writeWord r2.size d1 r2.tail m
      .ok m { r2 with data := d2,
                      tail := ((r2.tail + uintptrSize + m) % 2 ^ 64) % r2.size }

/-- `func (r *Ring) BlockWrites()` (syscall.go lines 71-75). -/
def Ring.BlockWrites (r : Ring) : Ring := { r with blockWrites := true }

/-- `func (r *Ring) UnblockWrites()` (syscall.go lines 78-82). -/
def Ring.UnblockWrites (r : Ring) : Ring := { r with blockWrites := false }

/-- Modelled from the spec: the private helper `reset` invoked by
`Ring.Reset` (part_001 line 335) is not among the source files; spec section
4.9 defines Reset as "Under the mutex, set `head = tail = 0`". -/
def Ring.reset (r : Ring) : Ring := { r with head := 0, tail := 0 }

/-- `func (r *Ring) Reset()` (part_001 lines 402-406): takes the mutex and
calls `r.reset()`. -/
def Ring.Reset (r : Ring) : Ring := r.reset

/-- Construction options (part_001).  `CustomHeader` is left out (nil) and
`DontCloseFile` only affects `Close`, which is pure resource glue. -/
structure Options where
  reserveHeader : Bool
  readOnlyCursor : Bool
  dontBlockReads : Bool

/-- `NewWithOptions` (part_001 lines 255-371) up to the platform mmap layer,
which is out of scope and modelled as succeeding.  `fileSize` is the size of
the backing file, `dataRegion` its bytes past the (optional) header page, and
`headerCursor` the `(head, tail)` pair found in the header page bytes.  With
`reserveHeader` the data region starts one page in and the cursor is seated
from the header (copied into memory when `readOnlyCursor` is set, which
changes nothing observable here); otherwise the cursor is zeroed.  In both
cases `readOnly` is set from `options.ReadOnlyCursor` and `dontBlockReads`
from `options.DontBlockReads`, unconditionally. -/
def NewWithOptions (fileSize : Nat) (dataRegion : Nat → Nat)
    (headerCursor : Nat × Nat) (options : Options) : Option Ring :=
  let offset := if options.reserveHeader then pageSize else 0
  let size := fileSize - offset
  let cur := if options.reserveHeader then headerCursor else (0, 0)
  if options.reserveHeader ∧ offset ≤ 2 * uintptrSize then none
  else if size % pageSize ≠ 0 then none
  else some { size := size, data := dataRegion, head := cur.1, tail := cur.2,
              readOnly := options.readOnlyCursor,
              dontBlockReads := options.dontBlockReads,
              blockWrites := false }

/-- `New` uses the zero options (part_001 lines 138-142). -/
def New (fileSize : Nat) (dataRegion : Nat → Nat) : Option Ring :=
  NewWithOptions fileSize dataRegion (0, 0) ⟨false, false, false⟩

/-- Sequence of `Write` calls; `none` as soon as one does not succeed. -/
def writeAll : Ring → List (List Nat) → Option Ring
  | r, [] => some r
  | r, p :: ps =>
    match r.Write p with
    | .ok _ r2 => writeAll r2 ps
    | _ => none

/-- `k` `Read` calls with a `bufLen`-byte buffer, collecting the returned
count and bytes of each; `none` as soon as one does not succeed. -/
def readSeq : Nat → Ring → Nat → Option (List (Nat × List Nat))
  | 0, _, _ => some []
  | k + 1, r, bufLen =>
    match r.Read bufLen with
    | .ok n bytes r2 => (readSeq k r2 bufLen).map (fun out => (n, bytes) :: out)
    | _ => none

/-- Total on-ring cost of a payload sequence: `Σ (|p| + P)`. -/
def framedSize (ps : List (List Nat)) : Nat :=
  (ps.map (fun p => p.length + uintptrSize)).sum

/-- The frames of the given payloads laid out consecutively from virtual
offset `o`: each frame is its length word followed by its payload bytes. -/
def framesAt (N : Nat) (d : Nat → Nat) : Nat → List (List Nat) → Prop
  | _, [] => True
  | o, p :: ps =>
    readWord N d o = p.length ∧
    readBytes N d (o + uintptrSize) p.length = p ∧
    framesAt N d (o + uintptrSize + p.length) ps

/-- Number of live records: walk frames from `pos` while `used` bytes remain
(fuel-bounded; a frame overrunning the used span counts once and stops). -/
def countFrames (N : Nat) (d : Nat → Nat) : Nat → Nat → Nat → Nat
  | 0, _, _ => 0
  | fuel + 1, pos, used =>
    if used = 0 then 0
    else
      let L := readWord N d pos
      if uintptrSize + L ≤ used then
        1 + countFrames N d fuel ((pos + uintptrSize + L) % N) (used - (uintptrSize + L))
      else 1

/-- The reference definition of used bytes from the spec: `(tail - head) mod
N`, as integers.  Compared against the case split of `Ring.len` in C8. -/
def usedSpec (r : Ring) : Nat :=
  (((r.tail : Int) - (r.head : Int)) % (r.size : Int)).toNat

/-! ### Concrete instances used by the counterexamples and scenario claims -/

/-- A freshly constructed ring over a zeroed 4096-byte file, default options
(scenario S2/S3 of the spec). -/
def ring4096 : Ring :=
  { size := 4096, data := fun _ => 0, head := 0, tail := 0,
    readOnly := false, dontBlockReads := false, blockWrites := false }

/-- Four payloads within the quarter-ring cap whose framed sizes sum to
exactly 4096: 1032 + 1032 + 1032 + 1000. -/
def exactFitPayloads : List (List Nat) :=
  [List.replicate 1024 1, List.replicate 1024 2,
   List.replicate 1024 3, List.replicate 992 4]

/-- The five 1024-byte payloads `A, B, C, D, E` of scenario S3 (bytes 65-69,
the ASCII codes of the letters). -/
def s3payloads : List (List Nat) :=
  [List.replicate 1024 65, List.replicate 1024 66, List.replicate 1024 67,
   List.replicate 1024 68, List.replicate 1024 69]

/-- The ring after the five S3 writes. -/
def s3after : Option Ring := writeAll ring4096 s3payloads

/-- A 4096-byte ring in read-only-cursor mode (constructed with
`ReadOnlyCursor: true`). -/
def ring4096ro : Ring := { ring4096 with readOnly := true }

/-- A three-page ring (N = 12288, a legal size: a positive page multiple that
does not divide 2 ^ 64) whose data region is all `0xFF` bytes, with a
recovered cursor `head = 0, tail = 8`; the length word at the head then reads
as `2 ^ 64 - 1`.  Nothing in the code validates recovered cursors against
the file contents, so this state is reachable by opening such a file. -/
def garbageRing : Ring :=
  { size := 12288, data := fun _ => 255, head := 0, tail := 8,
    readOnly := false, dontBlockReads := false, blockWrites := false }

/-- Projection: the ring carried by a successful or failed `Write` result. -/
def WriteResult.ringOf : WriteResult → Option Ring
  | .readOnlyErr r => some r
  | .tooLarge r => some r
  | .eofErr r => some r
  | .diverge => none
  | .ok _ r => some r

/-- Projection: the byte count returned by a successful `Write`. -/
def WriteResult.retVal : WriteResult → Option Nat
  | .ok n _ => some n
  | _ => none

/-- Projection: whether a `Write` failed with the too-large error. -/
def WriteResult.isTooLarge : WriteResult → Bool
  | .tooLarge _ => true
  | _ => false

/-- Projection: the new head after a successful `advanceHead`. -/
def advHeadResult : Except AdvErr Ring → Option Nat
  | .ok r => some r.head
  | .error _ => none

/-- Projection: the ring carried out of the room-making loop, on both exits. -/
def RoomResult.ringOf : RoomResult → Option Ring
  | .fuelOut => none
  | .eofErr r => some r
  | .ok r => some r

/-- Projection: the ring state at the return of a `Read` that did return. -/
def ReadResult.ringOf : ReadResult → Option Ring
  | .blocked => none
  | .panicked => none
  | .bufferTooSmall r => some r
  | .ok _ _ r => some r
  | .okEOF _ _ r => some r

/-- A 4096-byte ring holding the single record `[5, 6, 7]` (length word 3 at
offset 0, payload at offset 8, cursor `(0, 11)`). -/
def c4ring : Ring :=
  { size := 4096, data := writeWord 4096 (writeRange 4096 (fun _ => 0) 8 [5, 6, 7]) 0 3,
    head := 0, tail := 11,
    readOnly := false, dontBlockReads := false, blockWrites := false }

/-- A ring whose live window wraps (`head > tail`), exercising the first
branch of the `len()` case split. -/
def c8ring : Ring :=
  { size := 4096, data := fun _ => 0, head := 3000, tail := 8,
    readOnly := false, dontBlockReads := false, blockWrites := false }


set_option maxRecDepth 100000
set_option maxHeartbeats 4000000

/-! ### Byte-level lemmas about the mirror-map memory model -/

theorem natToBytes_length (k w : Nat) : (natToBytes k w).length = k := by
  induction k generalizing w with
  | zero => rfl
  | succ k ih => simp [natToBytes, ih]

theorem natToBytes_lt (k w : Nat) : ∀ b ∈ natToBytes k w, b < 256 := by
  induction k generalizing w with
  | zero => simp [natToBytes]
  | succ k ih =>
    intro b hb
    simp only [natToBytes, List.mem_cons] at hb
    rcases hb with h | h
    · omega
    · exact ih _ _ h

theorem bytesToNat_natToBytes (k w : Nat) :
    bytesToNat (natToBytes k w) = w % 256 ^ k := by
  induction k generalizing w with
  | zero => simp [natToBytes, bytesToNat, Nat.mod_one]
  | succ k ih =>
    have hpow : 256 ^ (k + 1) = 256 * 256 ^ k := by ring
    simp only [natToBytes, bytesToNat, ih, Nat.mod_mod_of_dvd, hpow]
    rw [Nat.mod_mul, Nat.mod_mod_of_dvd _ dvd_rfl]

theorem readBytes_length (N : Nat) (d : Nat → Nat) (pos len : Nat) :
    (readBytes N d pos len).length = len := by
  simp [readBytes]

/-- A byte inside the window written by `writeRange` (no wrap). -/
theorem writeRange_in (N : Nat) (d : Nat → Nat) (pos : Nat) (bs : List Nat)
    (i : Nat) (hfit : pos + bs.length ≤ N) (hi : i < bs.length) :
    writeRange N d pos bs (pos + i) = bs.getD i 0 % 256 := by
  have hposN : pos < N := by omega
  have hiN : i < N := by omega
  unfold writeRange
  have hmod : pos % N = pos := Nat.mod_eq_of_lt hposN
  rw [hmod]
  have harith : pos + i + N - pos = N + i := by omega
  have hidx : (pos + i + N - pos) % N = i := by
    rw [harith, Nat.add_mod_left, Nat.mod_eq_of_lt hiN]
  simp only [hidx, if_pos hi]

/-- A byte outside the window written by `writeRange` (no wrap) is untouched. -/
theorem writeRange_out (N : Nat) (d : Nat → Nat) (pos : Nat) (bs : List Nat)
    (j : Nat) (hfit : pos + bs.length ≤ N) (hj : j < N)
    (hout : j < pos ∨ pos + bs.length ≤ j) :
    writeRange N d pos bs j = d j := by
  rcases Nat.eq_zero_or_pos bs.length with hlen | hlen
  · unfold writeRange
    simp [hlen]
  have hposN : pos < N := by omega
  unfold writeRange
  have hmod : pos % N = pos := Nat.mod_eq_of_lt hposN
  rw [hmod]
  rcases Nat.lt_or_ge j pos with hcase | hcase
  · have harith : j + N - pos < N := by omega
    have hidx : (j + N - pos) % N = j + N - pos := Nat.mod_eq_of_lt harith
    rw [hidx]
    have : ¬ (j + N - pos < bs.length) := by omega
    simp only [this, if_false]
  · have harith : j + N - pos = (j - pos) + N := by omega
    have hidx : (j + N - pos) % N = j - pos := by
      rw [harith, Nat.add_mod_right, Nat.mod_eq_of_lt (by omega)]
    rw [hidx]
    have : ¬ (j - pos < bs.length) := by omega
    simp only [this, if_false]

/-- Reading depends only on the bytes of the span. -/
theorem readBytes_congr (N : Nat) (d1 d2 : Nat → Nat) (pos len : Nat)
    (h : ∀ i, i < len → d1 ((pos + i) % N) = d2 ((pos + i) % N)) :
    readBytes N d1 pos len = readBytes N d2 pos len := by
  unfold readBytes
  refine List.map_congr_left ?_
  intro i hi
  rw [h i (List.mem_range.mp hi)]

/-- Reading back the just-written span returns the written bytes. -/
theorem readBytes_writeRange_self (N : Nat) (d : Nat → Nat) (pos : Nat)
    (bs : List Nat) (hfit : pos + bs.length ≤ N) (hbs : ∀ b ∈ bs, b < 256) :
    readBytes N (writeRange N d pos bs) pos bs.length = bs := by
  unfold readBytes
  apply List.ext_getElem (by simp)
  intro i h1 h2
  have hi : i < bs.length := by simpa using h1
  have hmod : (pos + i) % N = pos + i := Nat.mod_eq_of_lt (by omega)
  simp only [List.getElem_map, List.getElem_range]
  rw [hmod, writeRange_in N d pos bs i hfit hi]
  have hgd : bs.getD i 0 = bs[i] := by
    simp [List.getD, List.getElem?_eq_getElem h2]
  rw [hgd]
  have : bs[i] < 256 := hbs _ (List.getElem_mem h2)
  omega

/-- A read span disjoint from the written window is unchanged. -/
theorem readBytes_writeRange_disjoint (N : Nat) (d : Nat → Nat) (pos : Nat)
    (bs : List Nat) (a l : Nat) (hw : pos + bs.length ≤ N) (hr : a + l ≤ N)
    (hdisj : a + l ≤ pos ∨ pos + bs.length ≤ a) :
    readBytes N (writeRange N d pos bs) a l = readBytes N d a l := by
  apply readBytes_congr
  intro i hi
  have hmod : (a + i) % N = a + i := Nat.mod_eq_of_lt (by omega)
  rw [hmod]
  apply writeRange_out N d pos bs (a + i) hw (by omega)
  omega

/-- Reading the machine word just stored at the same offset. -/
theorem readWord_writeWord (N : Nat) (d : Nat → Nat) (pos w : Nat)
    (hfit : pos + uintptrSize ≤ N) :
    readWord N (writeWord N d pos w) pos = w % 2 ^ 64 := by
  unfold readWord writeWord
  have hlen : (natToBytes uintptrSize w).length = uintptrSize :=
    natToBytes_length _ _
  have hself := readBytes_writeRange_self N d pos (natToBytes uintptrSize w)
    (by rw [hlen]; exact hfit) (natToBytes_lt _ _)
  rw [hlen] at hself
  rw [hself, bytesToNat_natToBytes]
  norm_num [uintptrSize]

/-- Index arithmetic of the mirror: the window slot that virtual offset
`(pos + i) % N` occupies in a window starting at `pos` is `i` itself. -/
theorem idx_round (N pos i : Nat) (hN : 0 < N) (hi : i < N) :
    ((pos + i) % N + N - pos % N) % N = i := by
  have hq : pos % N < N := Nat.mod_lt _ hN
  have h1 : (pos + i) % N = (pos % N + i) % N := by
    conv_lhs => rw [Nat.add_mod, Nat.mod_eq_of_lt hi]
  rcases lt_or_ge (pos % N + i) N with hc | hc
  · rw [h1, Nat.mod_eq_of_lt hc]
    have he : pos % N + i + N - pos % N = N + i := by omega
    rw [he, Nat.add_mod_left, Nat.mod_eq_of_lt hi]
  · have h2 : (pos % N + i) % N = pos % N + i - N := by
      rw [Nat.mod_eq_sub_mod hc, Nat.mod_eq_of_lt (by omega)]
    rw [h1, h2]
    have he : pos % N + i - N + N - pos % N = i := by omega
    rw [he, Nat.mod_eq_of_lt hi]

/-- Strip a `writeRange` layer from under a `readBytes` when every byte of
the read span falls outside the written window (wrap allowed on both sides);
the side condition is plain modular arithmetic, decidable by `omega` at
concrete offsets. -/
theorem readBytes_strip (N : Nat) (d : Nat → Nat) (pos : Nat) (bs : List Nat)
    (a l : Nat)
    (h : ∀ i, i < l → ¬ (((a + i) % N + N - pos % N) % N < bs.length)) :
    readBytes N (writeRange N d pos bs) a l = readBytes N d a l := by
  apply readBytes_congr
  intro i hi
  unfold writeRange
  simp only [if_neg (h i hi)]

/-- Strip a `writeRange` layer from under a `readWord` (same side condition,
specialised to the 8-byte word span). -/
theorem readWord_strip (N : Nat) (d : Nat → Nat) (pos : Nat) (bs : List Nat)
    (a : Nat)
    (h : ∀ i, i < uintptrSize → ¬ (((a + i) % N + N - pos % N) % N < bs.length)) :
    readWord N (writeRange N d pos bs) a = readWord N d a := by
  unfold readWord
  rw [readBytes_strip N d pos bs a uintptrSize h]

/-- Strip a `writeWord` layer from under a `readWord`. -/
theorem readWord_strip_word (N : Nat) (d : Nat → Nat) (pos w : Nat) (a : Nat)
    (h : ∀ i, i < uintptrSize → ¬ (((a + i) % N + N - pos % N) % N < uintptrSize)) :
    readWord N (writeWord N d pos w) a = readWord N d a := by
  unfold writeWord
  apply readWord_strip
  simpa [natToBytes_length] using h

/-- Strip a `writeWord` layer from under a `readBytes`. -/
theorem readBytes_strip_word (N : Nat) (d : Nat → Nat) (pos w : Nat) (a l : Nat)
    (h : ∀ i, i < l → ¬ (((a + i) % N + N - pos % N) % N < uintptrSize)) :
    readBytes N (writeWord N d pos w) a l = readBytes N d a l := by
  unfold writeWord
  apply readBytes_strip
  simpa [natToBytes_length] using h

/-- Reading back a just-written span, wrap allowed: the window may cross the
ring end, the mirror map still returns the written bytes verbatim. -/
theorem readBytes_writeRange_self_mod (N : Nat) (d : Nat → Nat) (pos : Nat)
    (bs : List Nat) (hN : 0 < N) (hlen : bs.length ≤ N)
    (hbs : ∀ b ∈ bs, b < 256) :
    readBytes N (writeRange N d pos bs) pos bs.length = bs := by
  unfold readBytes
  apply List.ext_getElem (by simp)
  intro i h1 h2
  have hi : i < bs.length := by simpa using h1
  simp only [List.getElem_map, List.getElem_range]
  unfold writeRange
  have hidx : ((pos + i) % N + N - pos % N) % N = i :=
    idx_round N pos i hN (by omega)
  simp only [hidx, if_pos hi]
  have hgd : bs.getD i 0 = bs[i] := by
    simp [List.getD, List.getElem?_eq_getElem h2]
  rw [hgd]
  have : bs[i] < 256 := hbs _ (List.getElem_mem h2)
  omega

/-- A machine word read from a span disjoint from the written window. -/
theorem readWord_writeRange_disjoint (N : Nat) (d : Nat → Nat) (pos : Nat)
    (bs : List Nat) (a : Nat) (hw : pos + bs.length ≤ N)
    (hr : a + uintptrSize ≤ N)
    (hdisj : a + uintptrSize ≤ pos ∨ pos + bs.length ≤ a) :
    readWord N (writeRange N d pos bs) a = readWord N d a := by
  unfold readWord
  rw [readBytes_writeRange_disjoint N d pos bs a uintptrSize hw hr hdisj]

/-- Reading a word depends only on the bytes of its span. -/
theorem readWord_congr (N : Nat) (d1 d2 : Nat → Nat) (pos : Nat)
    (h : ∀ i, i < uintptrSize → d1 ((pos + i) % N) = d2 ((pos + i) % N)) :
    readWord N d1 pos = readWord N d2 pos := by
  unfold readWord
  rw [readBytes_congr N d1 d2 pos uintptrSize h]

/-! ### Ring-level lemmas -/

theorem len_of_head_zero (r : Ring) (h : r.head = 0) : r.len = r.tail := by
  unfold Ring.len
  rw [h]
  rcases Nat.eq_zero_or_pos r.tail with ht | ht
  · simp [ht]
  · have h1 : ¬ 0 > r.tail := by omega
    simp [h1, ht]

theorem len_of_lt (r : Ring) (h : r.head < r.tail) : r.len = r.tail - r.head := by
  unfold Ring.len
  have h1 : ¬ r.head > r.tail := by omega
  simp [h1, h]

/-- The case split of `len()` agrees with the reference `(tail - head) mod N`
for cursors inside the ring. -/
theorem len_eq_usedSpec (r : Ring) (hh : r.head < r.size) (ht : r.tail < r.size) :
    r.len = usedSpec r := by
  unfold Ring.len usedSpec
  rcases Nat.lt_trichotomy r.head r.tail with hc | hc | hc
  · have h1 : ¬ r.head > r.tail := by omega
    have he : ((r.tail : Int) - r.head) % r.size = (r.tail : Int) - r.head := by
      apply Int.emod_eq_of_lt (by omega) (by omega)
    simp only [h1, if_false, hc, if_pos]
    rw [he]
    omega
  · simp only [hc, lt_irrefl, if_false, gt_iff_lt]
    rw [Int.sub_self, Int.zero_emod]
    rfl
  · have h1 : r.head > r.tail := hc
    have he : ((r.tail : Int) - r.head) % r.size
        = ((r.tail : Int) - r.head + r.size) % r.size := Int.add_emod_self.symm
    have he2 : ((r.tail : Int) - r.head + r.size) % r.size
        = (r.tail : Int) - r.head + r.size := by
      apply Int.emod_eq_of_lt (by omega) (by omega)
    simp only [h1, if_pos, gt_iff_lt]
    rw [he, he2]
    omega

theorem advanceHead_ok (r : Ring) (h : r.len ≠ 0) :
    r.advanceHead = .ok { r with
      head := ((r.head + readWord r.size r.data r.head + uintptrSize) % 2 ^ 64) % r.size } := by
  unfold Ring.advanceHead
  simp [h]

theorem advanceHead_err (r : Ring) (h : r.len = 0) :
    r.advanceHead = .error .eof := by
  unfold Ring.advanceHead
  simp [h]

/-- One `Write` on a ring whose head sits at 0 and whose tail leaves room for
the frame before the ring end: the frame is appended at `tail` without
advancing the head. -/
theorem Write_fits (r : Ring) (p : List Nat)
    (hro : r.readOnly = false)
    (hN : 16 ≤ r.size) (hNw : r.size < 2 ^ 64)
    (hp4 : p.length ≤ r.size / 4)
    (hh : r.head = 0)
    (hfit : r.tail + (p.length + uintptrSize) < r.size) :
    r.Write p = .ok p.length
      { r with
        data := writeWord r.size
          (writeRange r.size r.data (r.tail + uintptrSize) p) r.tail p.length,
        tail := r.tail + uintptrSize + p.length } := by
  have hlen : r.len = r.tail := len_of_head_zero r hh
  have hfree : r.freeBytes = r.size - r.tail := by
    unfold Ring.freeBytes
    rw [hlen]
  have hroom : makeRoom (p.length + uintptrSize) (r.size + 1) r = .ok r := by
    unfold makeRoom
    rw [if_neg (by rw [hfree]; unfold uintptrSize at hfit ⊢; omega)]
  have hm : min p.length (2 * r.size - (r.tail + uintptrSize)) = p.length := by
    unfold uintptrSize at hfit ⊢
    omega
  have htail : ((r.tail + uintptrSize + p.length) % 2 ^ 64) % r.size
      = r.tail + uintptrSize + p.length := by
    rw [Nat.mod_eq_of_lt (by unfold uintptrSize at hfit ⊢; omega),
        Nat.mod_eq_of_lt (by unfold uintptrSize at hfit ⊢; omega)]
  unfold Ring.Write
  rw [if_neg (by simp [hro]), if_neg (by omega), hroom]
  simp only [hm, List.take_length, htail]

theorem framedSize_cons (p : List Nat) (ps : List (List Nat)) :
    framedSize (p :: ps) = (p.length + uintptrSize) + framedSize ps := by
  simp [framedSize]

/-- Writing a payload sequence into a ring whose head is parked at 0 lays the
frames out consecutively from the current tail, appending each in order and
leaving all bytes below the old tail untouched. -/
theorem writeAll_spec : ∀ (ps : List (List Nat)) (r : Ring),
    r.readOnly = false → r.head = 0 → 16 ≤ r.size → r.size < 2 ^ 64 →
    (∀ p ∈ ps, p.length ≤ r.size / 4 ∧ ∀ b ∈ p, b < 256) →
    r.tail + framedSize ps < r.size →
    ∃ r2, writeAll r ps = some r2 ∧ r2.size = r.size ∧ r2.readOnly = false ∧
      r2.head = 0 ∧ r2.tail = r.tail + framedSize ps ∧
      r2.dontBlockReads = r.dontBlockReads ∧ r2.blockWrites = r.blockWrites ∧
      (∀ j, j < r.tail → r2.data j = r.data j) ∧
      framesAt r.size r2.data r.tail ps := by
  intro ps
  induction ps with
  | nil =>
    intro r hro hh hN hNw hps hfit
    refine ⟨r, rfl, rfl, hro, hh, by simp [framedSize], rfl, rfl, fun j _ => rfl, trivial⟩
  | cons p ps ih =>
    intro r hro hh hN hNw hps hfit
    have hu : uintptrSize = 8 := rfl
    have hp := hps p (List.mem_cons_self p ps)
    have hfc := framedSize_cons p ps
    have hfit1 : r.tail + (p.length + uintptrSize) < r.size := by omega
    have hw := Write_fits r p hro hN hNw hp.1 hh hfit1
    set d1 := writeRange r.size r.data (r.tail + uintptrSize) p with hd1
    set r1 : Ring := { r with
        data := writeWord r.size d1 r.tail p.length,
        tail := r.tail + uintptrSize + p.length } with hr1
    obtain ⟨r2, hall, hsz, hro2, hh2, ht2, hdb2, hbw2, hpres, hframes⟩ :=
      ih r1 hro hh hN hNw (fun q hq => hps q (List.mem_cons_of_mem p hq))
        (by show r.tail + uintptrSize + p.length + framedSize ps < r.size; omega)
    have hr1t : r1.tail = r.tail + uintptrSize + p.length := rfl
    have hstep : writeAll r (p :: ps) = writeAll r1 ps := by
      simp only [writeAll]
      rw [hw]
    have hpres1 : ∀ j, j < r1.tail → j < r.size → r2.data j = r1.data j := by
      intro j hj _
      exact hpres j hj
    -- bytes strictly below the old tail are untouched by the new frame
    have hlow : ∀ j, j < r.tail → r1.data j = r.data j := by
      intro j hj
      have hjN : j < r.size := by omega
      have e1 : writeWord r.size d1 r.tail p.length j = d1 j := by
        unfold writeWord
        apply writeRange_out _ _ _ _ _ (by rw [natToBytes_length]; omega) hjN
        rw [natToBytes_length]
        omega
      have e2 : d1 j = r.data j := by
        rw [hd1]
        apply writeRange_out _ _ _ _ _ (by omega) hjN
        omega
      show writeWord r.size d1 r.tail p.length j = r.data j
      rw [e1, e2]
    refine ⟨r2, by rw [hstep, hall], by rw [hsz], hro2, hh2, by omega,
      hdb2, hbw2, ?_, ?_⟩
    · intro j hj
      have : r2.data j = r1.data j := hpres j (by show j < r.tail + uintptrSize + p.length; omega)
      rw [this, hlow j hj]
    · show framesAt r.size r2.data r.tail (p :: ps)
      refine ⟨?_, ?_, ?_⟩
      · -- the length word of the new frame
        have hcong : readWord r.size r2.data r.tail = readWord r.size r1.data r.tail := by
          apply readWord_congr
          intro i hi
          have hlt : r.tail + i < r.size := by omega
          rw [Nat.mod_eq_of_lt hlt]
          exact hpres _ (by show r.tail + i < r.tail + uintptrSize + p.length; omega)
        rw [hcong]
        show readWord r.size (writeWord r.size d1 r.tail p.length) r.tail = p.length
        rw [readWord_writeWord _ _ _ _ (by omega)]
        exact Nat.mod_eq_of_lt (by omega)
      · -- the payload bytes of the new frame
        have hcong : readBytes r.size r2.data (r.tail + uintptrSize) p.length
            = readBytes r.size r1.data (r.tail + uintptrSize) p.length := by
          apply readBytes_congr
          intro i hi
          have hlt : r.tail + uintptrSize + i < r.size := by omega
          rw [Nat.mod_eq_of_lt hlt]
          exact hpres _ (by show r.tail + uintptrSize + i < r.tail + uintptrSize + p.length; omega)
        rw [hcong]
        show readBytes r.size (writeWord r.size d1 r.tail p.length)
            (r.tail + uintptrSize) p.length = p
        unfold writeWord
        rw [readBytes_writeRange_disjoint _ _ _ _ _ _
            (by rw [natToBytes_length]; omega) (by omega)
            (Or.inr (by rw [natToBytes_length]))]
        rw [hd1]
        exact readBytes_writeRange_self _ _ _ _ (by omega) hp.2
      · -- the remaining frames, laid out by the recursive writes
        show framesAt r.size r2.data (r.tail + uintptrSize + p.length) ps
        exact hframes

theorem makeRoom_done (need fuel : Nat) (r : Ring) (hfuel : 0 < fuel)
    (h : ¬ need > r.freeBytes) : makeRoom need fuel r = .ok r := by
  cases fuel with
  | zero => omega
  | succ n =>
    unfold makeRoom
    rw [if_neg h]

theorem makeRoom_adv (need fuel : Nat) (r r2 : Ring)
    (h : need > r.freeBytes) (hadv : r.advanceHead = .ok r2) :
    makeRoom need (fuel + 1) r = makeRoom need fuel r2 := by
  conv_lhs => unfold makeRoom
  rw [if_pos h, hadv]

/-- Evaluation shape of a successful `Write`, with the settled intermediate
state given field by field: guards passed, the room-making loop settled on
`⟨N, d2, hd, tl, ...⟩`, the copy was whole, the copy offset `tl + P` reduced
to `m2` and the tail bump reduced to `t2`. -/
theorem Write_eval (N : Nat) (d2 : Nat → Nat) (hd tl : Nat) (ro db bw : Bool)
    (r : Ring) (p : List Nat) (t2 m2 : Nat)
    (hro : r.readOnly = false)
    (hp4 : p.length ≤ r.size / 4)
    (hroom : makeRoom (p.length + uintptrSize) (r.size + 1) r
      = .ok ⟨N, d2, hd, tl, ro, db, bw⟩)
    (hm : min p.length (2 * N - (tl + uintptrSize)) = p.length)
    (hpos : tl + uintptrSize = m2)
    (ht : ((tl + uintptrSize + p.length) % 2 ^ 64) % N = t2) :
    r.Write p = .ok p.length
      ⟨N, writeWord N (writeRange N d2 m2 p) tl p.length, hd, t2, ro, db, bw⟩ := by
  subst hpos
  unfold Ring.Write
  rw [if_neg (by simp [hro]), if_neg (by omega), hroom]
  simp only [hm, List.take_length, ht]

theorem writeAll_cons_ok (r r2 : Ring) (n : Nat) (p : List Nat)
    (ps : List (List Nat)) (h : r.Write p = .ok n r2) :
    writeAll r (p :: ps) = writeAll r2 ps := by
  show (match r.Write p with
    | .ok _ r2 => writeAll r2 ps
    | _ => none) = _
  rw [h]

theorem writeAll_append (r : Ring) (xs ys : List (List Nat)) :
    writeAll r (xs ++ ys) = (writeAll r xs).bind (fun r2 => writeAll r2 ys) := by
  induction xs generalizing r with
  | nil => rfl
  | cons x xs ih =>
    show (match r.Write x with
      | .ok _ r2 => writeAll r2 (xs ++ ys)
      | _ => none) =
      ((match r.Write x with
        | .ok _ r2 => writeAll r2 xs
        | _ => none).bind fun r2 => writeAll r2 ys)
    cases r.Write x with
    | ok n r2 => exact ih r2
    | readOnlyErr r2 => rfl
    | tooLarge r2 => rfl
    | eofErr r2 => rfl
    | diverge => rfl

theorem int64OfWord_small (x : Nat) (h : x < 2 ^ 63) : int64OfWord x = (x : Int) := by
  unfold int64OfWord
  have h1 : x % 2 ^ 64 = x := Nat.mod_eq_of_lt (by omega)
  rw [h1, if_pos (by omega)]

/-- One `Read` of the oldest frame, when the live window does not wrap:
the frame bytes come back verbatim and the head advances past the frame. -/
theorem Read_frame (r : Ring) (p : List Nat) (bufLen : Nat)
    (hNw : r.size < 2 ^ 64) (htN : r.tail < r.size)
    (hfr : r.head + (uintptrSize + p.length) ≤ r.tail)
    (hw : readWord r.size r.data r.head = p.length)
    (hbytes : readBytes r.size r.data (r.head + uintptrSize) p.length = p)
    (hbuf : p.length ≤ bufLen) (hp63 : p.length < 2 ^ 63) :
    r.Read bufLen = .ok p.length p
      { r with head := r.head + uintptrSize + p.length } := by
  have hu : uintptrSize = 8 := rfl
  have hht : r.head < r.tail := by omega
  have hlen : r.len = r.tail - r.head := len_of_lt r hht
  have hne : r.len ≠ 0 := by omega
  have hadv : r.advanceHead = .ok { r with
      head := ((r.head + readWord r.size r.data r.head + uintptrSize) % 2 ^ 64) % r.size } :=
    advanceHead_ok r hne
  rw [hw] at hadv
  have hmod : ((r.head + p.length + uintptrSize) % 2 ^ 64) % r.size
      = r.head + uintptrSize + p.length := by
    rw [Nat.mod_eq_of_lt (by omega), Nat.mod_eq_of_lt (by omega)]
    omega
  rw [hmod] at hadv
  unfold Ring.Read
  rw [if_neg hne]
  simp only [hw]
  rw [int64OfWord_small _ hp63, if_neg (not_lt.mpr (by exact_mod_cast hbuf)),
    if_neg (by omega), hadv]
  rw [Nat.min_eq_right hbuf, hbytes]

/-- Evaluation shape of a successful `Read` of one frame, wrap allowed: the
ring is non-empty, the length word at the head is `|p|`, the bytes after it
read `p`, and the head bump reduces to `h2`. -/
theorem advanceHead_eval (N : Nat) (d2 : Nat → Nat) (hd tl : Nat)
    (ro db bw : Bool) (L h2 : Nat)
    (hne : Ring.len ⟨N, d2, hd, tl, ro, db, bw⟩ ≠ 0)
    (hw : readWord N d2 hd = L)
    (hmod : ((hd + L + uintptrSize) % 2 ^ 64) % N = h2) :
    Ring.advanceHead ⟨N, d2, hd, tl, ro, db, bw⟩ = .ok ⟨N, d2, h2, tl, ro, db, bw⟩ := by
  have h := advanceHead_ok ⟨N, d2, hd, tl, ro, db, bw⟩ hne
  simp only at h
  rw [hw, hmod] at h
  exact h

/-- Evaluation shape of a successful `Read` of one frame, with the ring given
field by field (wrap allowed): the ring is non-empty, the length word at the
head is `|p|`, the bytes after it read `p`, and the head bump reduces to
`h2`. -/
theorem Read_eval (N : Nat) (d2 : Nat → Nat) (hd tl : Nat) (ro db bw : Bool)
    (p : List Nat) (bufLen h2 : Nat)
    (hne : Ring.len ⟨N, d2, hd, tl, ro, db, bw⟩ ≠ 0)
    (hw : readWord N d2 hd = p.length)
    (hbytes : readBytes N d2 (hd + uintptrSize) p.length = p)
    (hbuf : p.length ≤ bufLen) (hp63 : p.length < 2 ^ 63)
    (hpanic : ¬ 2 * N < hd + uintptrSize + p.length)
    (hmod : ((hd + p.length + uintptrSize) % 2 ^ 64) % N = h2) :
    Ring.Read ⟨N, d2, hd, tl, ro, db, bw⟩ bufLen
      = .ok p.length p ⟨N, d2, h2, tl, ro, db, bw⟩ := by
  have hadv := advanceHead_eval N d2 hd tl ro db bw p.length h2 hne hw hmod
  unfold Ring.Read
  rw [if_neg hne]
  simp only [hw]
  rw [int64OfWord_small _ hp63]
  rw [if_neg (not_lt.mpr (by exact_mod_cast hbuf))]
  rw [if_neg (by simpa using hpanic), hadv]
  rw [Nat.min_eq_right hbuf]
  simp only
  rw [hbytes]

theorem readSeq_cons_ok (k : Nat) (r r2 : Ring) (n bufLen : Nat)
    (bytes : List Nat) (h : r.Read bufLen = .ok n bytes r2) :
    readSeq (k + 1) r bufLen
      = (readSeq k r2 bufLen).map (fun out => (n, bytes) :: out) := by
  show (match r.Read bufLen with
    | .ok n bytes r2 => (readSeq k r2 bufLen).map (fun out => (n, bytes) :: out)
    | _ => none) = _
  rw [h]

/-- Reading the laid-out frames back, one `Read` per frame, returns exactly
the payloads in order together with their lengths. -/
theorem readSeq_spec : ∀ (ps : List (List Nat)) (r : Ring) (bufLen : Nat),
    r.size < 2 ^ 64 → r.tail < r.size →
    r.head + framedSize ps = r.tail →
    framesAt r.size r.data r.head ps →
    (∀ p ∈ ps, p.length ≤ bufLen ∧ p.length < 2 ^ 63) →
    readSeq ps.length r bufLen = some (ps.map (fun p => (p.length, p))) := by
  intro ps
  induction ps with
  | nil => intro r bufLen _ _ _ _ _; rfl
  | cons p ps ih =>
    intro r bufLen hNw htN hft hframes hps
    obtain ⟨hw, hbytes, hrest⟩ := hframes
    have hu : uintptrSize = 8 := rfl
    have hfc := framedSize_cons p ps
    have hp := hps p (List.mem_cons_self p ps)
    have hread := Read_frame r p bufLen hNw htN (by omega) hw hbytes hp.1 hp.2
    have hih := ih { r with head := r.head + uintptrSize + p.length } bufLen hNw htN
      (by show r.head + uintptrSize + p.length + framedSize ps = r.tail; omega)
      hrest (fun q hq => hps q (List.mem_cons_of_mem p hq))
    show readSeq (p :: ps).length r bufLen = _
    simp only [List.length_cons, readSeq]
    rw [hread]
    simp only [hih, Option.map_some']
    simp


theorem countFrames_step (N : Nat) (d : Nat → Nat) (fuel pos used L : Nat)
    (hused : used ≠ 0) (hw : readWord N d pos = L)
    (hle : uintptrSize + L ≤ used) :
    countFrames N d (fuel + 1) pos used
      = 1 + countFrames N d fuel ((pos + uintptrSize + L) % N)
            (used - (uintptrSize + L)) := by
  conv_lhs => unfold countFrames
  rw [if_neg hused]
  simp only [hw]
  rw [if_pos hle]

theorem countFrames_zero (N : Nat) (d : Nat → Nat) (fuel pos : Nat) :
    countFrames N d (fuel + 1) pos 0 = 0 := by
  conv_lhs => unfold countFrames
  rw [if_pos rfl]

/-- Evaluate `len()` on an explicitly given ring by settling its case split. -/
theorem len_eval (N : Nat) (d : Nat → Nat) (hd tl : Nat) (ro db bw : Bool) (u : Nat)
    (h : (if hd > tl then (N - hd) + tl else if hd < tl then tl - hd else 0) = u) :
    Ring.len ⟨N, d, hd, tl, ro, db, bw⟩ = u := h


set_option maxRecDepth 100000 in
/-- The S3 run after the first three (fitting) writes: on a 4096-byte ring
holding frames `A, B, C` at offsets 0, 1032 and 2064 with cursor `(0, 3096)`,
writing `D` drops `A` and lands at 3096 (payload wrapping the ring end),
writing `E` drops `B` and lands at 32, and the three subsequent reads return
`C, D, E`. -/
theorem s3_tail_run (d : Nat → Nat)
    (hwA2 : readWord 4096 d 0 = 1024)
    (hwB2 : readWord 4096 d 1032 = 1024)
    (hwC2 : readWord 4096 d 2064 = 1024)
    (hbC2 : readBytes 4096 d 2072 1024 = List.replicate 1024 67) :
    writeAll ⟨4096, d, 0, 3096, false, false, false⟩
      [List.replicate 1024 68, List.replicate 1024 69] = some
      ⟨4096, writeWord 4096 (writeRange 4096
          (writeWord 4096 (writeRange 4096 d 3104 (List.replicate 1024 68)) 3096
            (List.replicate 1024 68).length)
          40 (List.replicate 1024 69)) 32 (List.replicate 1024 69).length,
        2064, 1064, false, false, false⟩ ∧
    readSeq 3
      ⟨4096, writeWord 4096 (writeRange 4096
          (writeWord 4096 (writeRange 4096 d 3104 (List.replicate 1024 68)) 3096
            (List.replicate 1024 68).length)
          40 (List.replicate 1024 69)) 32 (List.replicate 1024 69).length,
        2064, 1064, false, false, false⟩ 1024 = some
      [(1024, List.replicate 1024 67), (1024, List.replicate 1024 68),
       (1024, List.replicate 1024 69)] ∧
    countFrames 4096
      (writeWord 4096 (writeRange 4096
          (writeWord 4096 (writeRange 4096 d 3104 (List.replicate 1024 68)) 3096
            (List.replicate 1024 68).length)
          40 (List.replicate 1024 69)) 32 (List.replicate 1024 69).length)
      8 2064
      (Ring.len ⟨4096, writeWord 4096 (writeRange 4096
          (writeWord 4096 (writeRange 4096 d 3104 (List.replicate 1024 68)) 3096
            (List.replicate 1024 68).length)
          40 (List.replicate 1024 69)) 32 (List.replicate 1024 69).length,
        2064, 1064, false, false, false⟩) = 3 := by
  -- the fourth write: the head advances past frame A, then D lands at 3096
  have hadv3 : Ring.advanceHead ⟨4096, d, 0, 3096, false, false, false⟩
      = .ok ⟨4096, d, 1032, 3096, false, false, false⟩ :=
    advanceHead_eval 4096 d 0 3096 false false false 1024 1032
      (by simp only [Ring.len]; norm_num) hwA2 (by decide)
  have hroomD : makeRoom ((List.replicate 1024 68).length + uintptrSize)
      (Ring.size ⟨4096, d, 0, 3096, false, false, false⟩ + 1)
      ⟨4096, d, 0, 3096, false, false, false⟩
      = .ok ⟨4096, d, 1032, 3096, false, false, false⟩ := by
    show makeRoom ((List.replicate 1024 68).length + uintptrSize) (4096 + 1) _ = _
    rw [makeRoom_adv _ 4096 _ _
      (by simp only [List.length_replicate, uintptrSize, Ring.freeBytes, Ring.len]
          norm_num) hadv3]
    apply makeRoom_done _ _ _ (by norm_num)
    simp only [List.length_replicate, uintptrSize, Ring.freeBytes, Ring.len]
    norm_num
  have hwriteD := Write_eval 4096 d 1032 3096 false false false
    ⟨4096, d, 0, 3096, false, false, false⟩ (List.replicate 1024 68) 32 3104
    rfl
    (by show (List.replicate 1024 68).length ≤ 4096 / 4
        simp only [List.length_replicate]; norm_num)
    hroomD
    (by simp only [List.length_replicate, uintptrSize]; norm_num)
    (by decide)
    (by simp only [List.length_replicate, uintptrSize]; decide)
  -- the fifth write: the head advances past frame B, then E lands at 32
  have hwB4 : readWord 4096
      (writeWord 4096 (writeRange 4096 d 3104 (List.replicate 1024 68)) 3096
        (List.replicate 1024 68).length) 1032 = 1024 := by
    rw [readWord_strip_word 4096 _ 3096 _ 1032
        (by intro i hi; simp only [uintptrSize] at hi ⊢; omega),
      readWord_strip 4096 d 3104 _ 1032
        (by intro i hi; simp only [uintptrSize] at hi
            simp only [List.length_replicate]; omega)]
    exact hwB2
  have hadv4 : Ring.advanceHead
      ⟨4096, writeWord 4096 (writeRange 4096 d 3104 (List.replicate 1024 68)) 3096
        (List.replicate 1024 68).length, 1032, 32, false, false, false⟩
      = .ok ⟨4096, writeWord 4096 (writeRange 4096 d 3104 (List.replicate 1024 68)) 3096
        (List.replicate 1024 68).length, 2064, 32, false, false, false⟩ :=
    advanceHead_eval 4096 _ 1032 32 false false false 1024 2064
      (by simp only [Ring.len]; norm_num) hwB4 (by decide)
  have hroomE : makeRoom ((List.replicate 1024 69).length + uintptrSize)
      (Ring.size ⟨4096, writeWord 4096 (writeRange 4096 d 3104 (List.replicate 1024 68)) 3096
        (List.replicate 1024 68).length, 1032, 32, false, false, false⟩ + 1)
      ⟨4096, writeWord 4096 (writeRange 4096 d 3104 (List.replicate 1024 68)) 3096
        (List.replicate 1024 68).length, 1032, 32, false, false, false⟩
      = .ok ⟨4096, writeWord 4096 (writeRange 4096 d 3104 (List.replicate 1024 68)) 3096
        (List.replicate 1024 68).length, 2064, 32, false, false, false⟩ := by
    show makeRoom ((List.replicate 1024 69).length + uintptrSize) (4096 + 1) _ = _
    rw [makeRoom_adv _ 4096 _ _
      (by simp only [List.length_replicate, uintptrSize, Ring.freeBytes, Ring.len]
          norm_num) hadv4]
    apply makeRoom_done _ _ _ (by norm_num)
    simp only [List.length_replicate, uintptrSize, Ring.freeBytes, Ring.len]
    norm_num
  have hwriteE := Write_eval 4096
    (writeWord 4096 (writeRange 4096 d 3104 (List.replicate 1024 68)) 3096
      (List.replicate 1024 68).length) 2064 32 false false false
    ⟨4096, writeWord 4096 (writeRange 4096 d 3104 (List.replicate 1024 68)) 3096
      (List.replicate 1024 68).length, 1032, 32, false, false, false⟩
    (List.replicate 1024 69) 1064 40
    rfl
    (by show (List.replicate 1024 69).length ≤ 4096 / 4
        simp only [List.length_replicate]; norm_num)
    hroomE
    (by simp only [List.length_replicate, uintptrSize]; norm_num)
    (by decide)
    (by simp only [List.length_replicate, uintptrSize]; decide)
  -- the three live frames under the final data function
  have hF1w : readWord 4096
      (writeWord 4096 (writeRange 4096
        (writeWord 4096 (writeRange 4096 d 3104 (List.replicate 1024 68)) 3096
          (List.replicate 1024 68).length)
        40 (List.replicate 1024 69)) 32 (List.replicate 1024 69).length)
      2064 = 1024 := by
    rw [readWord_strip_word 4096 _ 32 _ 2064
        (by intro i hi; simp only [uintptrSize] at hi ⊢; omega),
      readWord_strip 4096 _ 40 _ 2064
        (by intro i hi; simp only [uintptrSize] at hi
            simp only [List.length_replicate]; omega),
      readWord_strip_word 4096 _ 3096 _ 2064
        (by intro i hi; simp only [uintptrSize] at hi ⊢; omega),
      readWord_strip 4096 d 3104 _ 2064
        (by intro i hi; simp only [uintptrSize] at hi
            simp only [List.length_replicate]; omega)]
    exact hwC2
  have hF1b : readBytes 4096
      (writeWord 4096 (writeRange 4096
        (writeWord 4096 (writeRange 4096 d 3104 (List.replicate 1024 68)) 3096
          (List.replicate 1024 68).length)
        40 (List.replicate 1024 69)) 32 (List.replicate 1024 69).length)
      2072 1024 = List.replicate 1024 67 := by
    rw [readBytes_strip_word 4096 _ 32 _ 2072 1024
        (by intro i hi; simp only [uintptrSize]; omega),
      readBytes_strip 4096 _ 40 _ 2072 1024
        (by intro i hi; simp only [List.length_replicate]; omega),
      readBytes_strip_word 4096 _ 3096 _ 2072 1024
        (by intro i hi; simp only [uintptrSize]; omega),
      readBytes_strip 4096 d 3104 _ 2072 1024
        (by intro i hi; simp only [List.length_replicate]; omega)]
    exact hbC2
  have hF2w : readWord 4096
      (writeWord 4096 (writeRange 4096
        (writeWord 4096 (writeRange 4096 d 3104 (List.replicate 1024 68)) 3096
          (List.replicate 1024 68).length)
        40 (List.replicate 1024 69)) 32 (List.replicate 1024 69).length)
      3096 = 1024 := by
    rw [readWord_strip_word 4096 _ 32 _ 3096
        (by intro i hi; simp only [uintptrSize] at hi ⊢; omega),
      readWord_strip 4096 _ 40 _ 3096
        (by intro i hi; simp only [uintptrSize] at hi
            simp only [List.length_replicate]; omega),
      readWord_writeWord 4096 _ 3096 _ (by norm_num [uintptrSize])]
    simp only [List.length_replicate]
    decide
  have hF2b : readBytes 4096
      (writeWord 4096 (writeRange 4096
        (writeWord 4096 (writeRange 4096 d 3104 (List.replicate 1024 68)) 3096
          (List.replicate 1024 68).length)
        40 (List.replicate 1024 69)) 32 (List.replicate 1024 69).length)
      3104 1024 = List.replicate 1024 68 := by
    rw [readBytes_strip_word 4096 _ 32 _ 3104 1024
        (by intro i hi; simp only [uintptrSize]; omega),
      readBytes_strip 4096 _ 40 _ 3104 1024
        (by intro i hi; simp only [List.length_replicate]; omega),
      readBytes_strip_word 4096 _ 3096 _ 3104 1024
        (by intro i hi; simp only [uintptrSize]; omega)]
    have h := readBytes_writeRange_self_mod 4096 d 3104 (List.replicate 1024 68)
      (by norm_num) (by simp only [List.length_replicate]; norm_num)
      (by intro b hb; have := List.eq_of_mem_replicate hb; omega)
    simp only [List.length_replicate] at h
    exact h
  have hF3w : readWord 4096
      (writeWord 4096 (writeRange 4096
        (writeWord 4096 (writeRange 4096 d 3104 (List.replicate 1024 68)) 3096
          (List.replicate 1024 68).length)
        40 (List.replicate 1024 69)) 32 (List.replicate 1024 69).length)
      32 = 1024 := by
    rw [readWord_writeWord 4096 _ 32 _ (by norm_num [uintptrSize])]
    simp only [List.length_replicate]
    decide
  have hF3b : readBytes 4096
      (writeWord 4096 (writeRange 4096
        (writeWord 4096 (writeRange 4096 d 3104 (List.replicate 1024 68)) 3096
          (List.replicate 1024 68).length)
        40 (List.replicate 1024 69)) 32 (List.replicate 1024 69).length)
      40 1024 = List.replicate 1024 69 := by
    rw [readBytes_strip_word 4096 _ 32 _ 40 1024
        (by intro i hi; simp only [uintptrSize]; omega)]
    have h := readBytes_writeRange_self_mod 4096
      (writeWord 4096 (writeRange 4096 d 3104 (List.replicate 1024 68)) 3096
        (List.replicate 1024 68).length)
      40 (List.replicate 1024 69)
      (by norm_num) (by simp only [List.length_replicate]; norm_num)
      (by intro b hb; have := List.eq_of_mem_replicate hb; omega)
    simp only [List.length_replicate] at h
    exact h
  -- the three reads
  have hread1 := Read_eval 4096
    (writeWord 4096 (writeRange 4096
      (writeWord 4096 (writeRange 4096 d 3104 (List.replicate 1024 68)) 3096
        (List.replicate 1024 68).length)
      40 (List.replicate 1024 69)) 32 (List.replicate 1024 69).length)
    2064 1064 false false false (List.replicate 1024 67) 1024 3096
    (by simp only [Ring.len]; norm_num)
    (by simp only [List.length_replicate]; exact hF1w)
    (by simp only [List.length_replicate]; exact hF1b)
    (by simp only [List.length_replicate]; norm_num)
    (by simp only [List.length_replicate]; norm_num)
    (by simp only [List.length_replicate, uintptrSize]; norm_num)
    (by simp only [List.length_replicate, uintptrSize]; decide)
  have hread2 := Read_eval 4096
    (writeWord 4096 (writeRange 4096
      (writeWord 4096 (writeRange 4096 d 3104 (List.replicate 1024 68)) 3096
        (List.replicate 1024 68).length)
      40 (List.replicate 1024 69)) 32 (List.replicate 1024 69).length)
    3096 1064 false false false (List.replicate 1024 68) 1024 32
    (by simp only [Ring.len]; norm_num)
    (by simp only [List.length_replicate]; exact hF2w)
    (by simp only [List.length_replicate]; exact hF2b)
    (by simp only [List.length_replicate]; norm_num)
    (by simp only [List.length_replicate]; norm_num)
    (by simp only [List.length_replicate, uintptrSize]; norm_num)
    (by simp only [List.length_replicate, uintptrSize]; decide)
  have hread3 := Read_eval 4096
    (writeWord 4096 (writeRange 4096
      (writeWord 4096 (writeRange 4096 d 3104 (List.replicate 1024 68)) 3096
        (List.replicate 1024 68).length)
      40 (List.replicate 1024 69)) 32 (List.replicate 1024 69).length)
    32 1064 false false false (List.replicate 1024 69) 1024 1064
    (by simp only [Ring.len]; norm_num)
    (by simp only [List.length_replicate]; exact hF3w)
    (by simp only [List.length_replicate]; exact hF3b)
    (by simp only [List.length_replicate]; norm_num)
    (by simp only [List.length_replicate]; norm_num)
    (by simp only [List.length_replicate, uintptrSize]; norm_num)
    (by simp only [List.length_replicate, uintptrSize]; decide)
  refine ⟨?_, ?_, ?_⟩
  · rw [writeAll_cons_ok _ _ _ _ _ hwriteD, writeAll_cons_ok _ _ _ _ _ hwriteE]
    rfl
  · rw [readSeq_cons_ok 2 _ _ _ _ _ hread1, readSeq_cons_ok 1 _ _ _ _ _ hread2,
      readSeq_cons_ok 0 _ _ _ _ _ hread3]
    rfl
  · rw [len_eval 4096 _ 2064 1064 false false false 3096 (by norm_num)]
    rw [show (8 : Nat) = 7 + 1 from rfl]
    rw [countFrames_step 4096 _ 7 2064 3096 1024 (by norm_num) hF1w
        (by norm_num [uintptrSize])]
    rw [show ((2064 + uintptrSize + 1024) % 4096 : Nat) = 3096 from by
          norm_num [uintptrSize],
        show (3096 - (uintptrSize + 1024) : Nat) = 2064 from by
          norm_num [uintptrSize]]
    rw [countFrames_step 4096 _ 6 3096 2064 1024 (by norm_num) hF2w
        (by norm_num [uintptrSize])]
    rw [show ((3096 + uintptrSize + 1024) % 4096 : Nat) = 32 from by
          norm_num [uintptrSize],
        show (2064 - (uintptrSize + 1024) : Nat) = 1032 from by
          norm_num [uintptrSize]]
    rw [countFrames_step 4096 _ 5 32 1032 1024 (by norm_num) hF3w
        (by norm_num [uintptrSize])]
    rw [show ((32 + uintptrSize + 1024) % 4096 : Nat) = 1064 from by
          norm_num [uintptrSize],
        show (1032 - (uintptrSize + 1024) : Nat) = 0 from by
          norm_num [uintptrSize]]
    rw [show (5 : Nat) = 4 + 1 from rfl, countFrames_zero]

/-- `advanceHead` only moves the head, and lands it below the ring size. -/
theorem advanceHead_inv (r r2 : Ring) (hN : 0 < r.size)
    (h : r.advanceHead = .ok r2) :
    r2.size = r.size ∧ r2.head < r.size ∧ r2.tail = r.tail := by
  unfold Ring.advanceHead at h
  by_cases hlen : r.len = 0
  · rw [if_pos hlen] at h
    exact Except.noConfusion h
  · rw [if_neg hlen] at h
    simp only [Except.ok.injEq] at h
    subst h
    exact ⟨rfl, Nat.mod_lt _ hN, rfl⟩

/-- The room-making loop only moves the head, and keeps it below the ring
size, on both of its exits. -/
theorem makeRoom_inv (need : Nat) : ∀ (fuel : Nat) (r r2 : Ring), 0 < r.size →
    r.head < r.size → (makeRoom need fuel r).ringOf = some r2 →
    r2.size = r.size ∧ r2.head < r.size ∧ r2.tail = r.tail := by
  intro fuel
  induction fuel with
  | zero =>
    intro r r2 _ _ h
    exact Option.noConfusion h
  | succ n ih =>
    intro r r2 hN hh
    unfold makeRoom
    by_cases hc : need > r.freeBytes
    · rw [if_pos hc]
      cases hadv : r.advanceHead with
      | error e =>
        intro h
        simp only [RoomResult.ringOf, Option.some.injEq] at h
        subst h
        exact ⟨rfl, hh, rfl⟩
      | ok r3 =>
        intro h
        obtain ⟨hsz3, hh3, ht3⟩ := advanceHead_inv r r3 hN hadv
        obtain ⟨hsz2, hh2, ht2⟩ := ih r3 r2 (by omega) (by omega) h
        exact ⟨by omega, by omega, by omega⟩
    · rw [if_neg hc]
      intro h
      simp only [RoomResult.ringOf, Option.some.injEq] at h
      subst h
      exact ⟨rfl, hh, rfl⟩

/-- Any ring handed back by `Write` (on success or with the advance error)
keeps both cursor components below the ring size. -/
theorem Write_cursor_inv (r : Ring) (p : List Nat) (r2 : Ring)
    (hN : 0 < r.size) (hh : r.head < r.size) (ht : r.tail < r.size)
    (h : (r.Write p).ringOf = some r2) :
    r2.size = r.size ∧ r2.head < r.size ∧ r2.tail < r.size := by
  unfold Ring.Write at h
  by_cases hro : r.readOnly
  · rw [if_pos hro] at h
    simp only [WriteResult.ringOf, Option.some.injEq] at h
    subst h
    exact ⟨rfl, hh, ht⟩
  · rw [if_neg hro] at h
    by_cases hbig : p.length > r.size / 4
    · rw [if_pos hbig] at h
      simp only [WriteResult.ringOf, Option.some.injEq] at h
      subst h
      exact ⟨rfl, hh, ht⟩
    · rw [if_neg hbig] at h
      cases hroom : makeRoom (p.length + uintptrSize) (r.size + 1) r with
      | fuelOut =>
        rw [hroom] at h
        exact Option.noConfusion (h : (WriteResult.diverge).ringOf = some r2)
      | eofErr r3 =>
        rw [hroom] at h
        obtain ⟨hsz3, hh3, ht3⟩ := makeRoom_inv _ _ r r3 hN hh (by rw [hroom]; rfl)
        simp only [WriteResult.ringOf, Option.some.injEq] at h
        subst h
        exact ⟨hsz3, hh3, by omega⟩
      | ok r3 =>
        rw [hroom] at h
        obtain ⟨hsz3, hh3, ht3⟩ := makeRoom_inv _ _ r r3 hN hh (by rw [hroom]; rfl)
        simp only [WriteResult.ringOf, Option.some.injEq] at h
        subst h
        exact ⟨hsz3, hh3, Nat.lt_of_lt_of_eq (Nat.mod_lt _ (by omega)) hsz3⟩

/-- Any ring handed back by `Read` keeps both cursor components below the
ring size (the tail is in fact untouched). -/
theorem Read_cursor_inv (r : Ring) (bufLen : Nat) (r2 : Ring)
    (hN : 0 < r.size) (hh : r.head < r.size)
    (h : (r.Read bufLen).ringOf = some r2) :
    r2.size = r.size ∧ r2.head < r.size ∧ r2.tail = r.tail := by
  unfold Ring.Read at h
  by_cases hlen : r.len = 0
  · rw [if_pos hlen] at h
    exact Option.noConfusion h
  · rw [if_neg hlen] at h
    simp only [] at h
    by_cases hbuf : (bufLen : Int) < int64OfWord (readWord r.size r.data r.head)
    · rw [if_pos hbuf] at h
      simp only [ReadResult.ringOf, Option.some.injEq] at h
      subst h
      exact ⟨rfl, hh, rfl⟩
    · rw [if_neg hbuf] at h
      by_cases hpan : 2 * r.size < r.head + uintptrSize + readWord r.size r.data r.head
      · rw [if_pos hpan] at h
        exact Option.noConfusion h
      · rw [if_neg hpan] at h
        cases hadv : r.advanceHead with
        | ok r3 =>
          rw [hadv] at h
          obtain ⟨hsz3, hh3, ht3⟩ := advanceHead_inv r r3 hN hadv
          simp only [ReadResult.ringOf, Option.some.injEq] at h
          subst h
          exact ⟨hsz3, hh3, ht3⟩
        | error e =>
          rw [hadv] at h
          simp only [ReadResult.ringOf, Option.some.injEq] at h
          subst h
          exact ⟨rfl, hh, rfl⟩

/-- A ring opened without a header page: the data region spans the whole
file, the cursor starts zeroed, and the flags are copied from the options. -/
theorem NewWithOptions_noHeader (fs : Nat) (d : Nat → Nat) (hc : Nat × Nat)
    (ro db : Bool) (r : Ring)
    (h : NewWithOptions fs d hc ⟨false, ro, db⟩ = some r) :
    r = ⟨fs, d, 0, 0, ro, db, false⟩ := by
  simp [NewWithOptions, pageSize, uintptrSize] at h
  exact h.2.symm


/-! ### Claim theorems -/

/-- Claim C1, as stated, is false: when the total framed size is exactly `N`
(allowed by the bound `Σ(|pᵢ|+P) ≤ N`) the final write lands the tail exactly
on the head, the ring reads as empty (`used = (tail - head) mod N = 0`), and
the reads cannot return the payloads.  Concretely on `N = 4096` with framed
sizes `1032 + 1032 + 1032 + 1000 = 4096`: all four writes succeed, but the
first read finds `used = 0` and blocks, so the four reads do not yield the
payloads. -/
theorem C1_counterexample :
    (∀ p ∈ exactFitPayloads, p.length ≤ 4096 / 4) ∧
    framedSize exactFitPayloads ≤ 4096 ∧
    (writeAll ring4096 exactFitPayloads).isSome = true ∧
    ((writeAll ring4096 exactFitPayloads).bind fun r1 => readSeq 4 r1 1024) = none ∧
    ((writeAll ring4096 exactFitPayloads).bind fun r1 => readSeq 4 r1 1024)
      ≠ some (exactFitPayloads.map fun p => (p.length, p)) :=
  ⟨by decide, by decide, by decide, by decide, by decide⟩

/-- Claim C1 (amended: the total framed size must be strictly below `N`):
for payloads `p₁..pₖ`, each of length at most `N/4`, with `Σ(|pᵢ|+P) < N`,
starting from an empty ring, writing them all and then reading `k` times
with buffers of at least `max |pᵢ|` bytes returns exactly `p₁..pₖ` in order,
each read returning the length of the corresponding payload. -/
theorem C1_roundtrip (N : Nat) (d0 : Nat → Nat) (ps : List (List Nat)) (bufLen : Nat)
    (hN : 16 ≤ N) (hNw : N < 2 ^ 64)
    (hquarter : ∀ p ∈ ps, p.length ≤ N / 4)
    (hbytes : ∀ p ∈ ps, ∀ b ∈ p, b < 256)
    (htotal : framedSize ps < N)
    (hbuf : ∀ p ∈ ps, p.length ≤ bufLen) :
    ((writeAll ⟨N, d0, 0, 0, false, false, false⟩ ps).bind
      fun r1 => readSeq ps.length r1 bufLen) = some (ps.map (fun p => (p.length, p))) := by
  obtain ⟨r2, hall, hsz, _, hh2, ht2, _, _, _, hframes⟩ :=
    writeAll_spec ps ⟨N, d0, 0, 0, false, false, false⟩ rfl rfl hN hNw
      (fun p hp => ⟨hquarter p hp, hbytes p hp⟩) (by simpa using htotal)
  rw [hall]
  show readSeq ps.length r2 bufLen = _
  have hszN : r2.size = N := hsz
  have htail : r2.tail = framedSize ps := by simpa using ht2
  apply readSeq_spec ps r2 bufLen (by omega) (by omega) (by omega)
  · show framesAt r2.size r2.data r2.head ps
    rw [hszN, hh2]
    simpa using hframes
  · intro p hp
    refine ⟨hbuf p hp, ?_⟩
    have h4 := hquarter p hp
    omega

/-- Witness for C1_roundtrip at a concrete instance. -/
theorem C1_roundtrip_witness :
    framedSize [[1, 2, 3]] < 4096 ∧ (∀ p ∈ [[1, 2, 3]], p.length ≤ 4096 / 4) ∧
    ((writeAll ⟨4096, fun _ => 0, 0, 0, false, false, false⟩ [[1, 2, 3]]).bind
      fun r1 => readSeq 1 r1 16) = some [(3, [1, 2, 3])] :=
  ⟨by decide, by decide,
    C1_roundtrip 4096 (fun _ => 0) [[1, 2, 3]] 16 (by decide) (by decide)
      (by decide) (by decide) (by decide) (by decide)⟩

/-- Claim C2, as stated, is false: with `N = 4096` and five 1024-byte writes
`A..E`, only three 1032-byte frames fit (`3 × 1032 = 3096 ≤ 4096 < 4 × 1032`),
so exactly three live records remain (not four) and only three reads succeed
(a fourth read finds the ring empty), so the reads cannot yield `B, C, D, E`. -/
theorem C2_counterexample :
    (s3after.map fun r => countFrames 4096 r.data 8 r.head r.len) = some 3 ∧
    (s3after.bind fun r => readSeq 4 r 1024) = none ∧
    (s3after.bind fun r => readSeq 4 r 1024)
      ≠ some [(1024, List.replicate 1024 66), (1024, List.replicate 1024 67),
              (1024, List.replicate 1024 68), (1024, List.replicate 1024 69)] :=
  ⟨by decide, by decide, by decide⟩


set_option maxRecDepth 100000 in
/-- Claim C2 (amended: exactly THREE records survive, and the reads yield
`C, D, E`): with `N = 4096`, no header, `P = 8`, writing the five 1024-byte
payloads `A..E` leaves exactly three live records, and three subsequent
`Read`s (1024-byte buffers) return `C, D, E` in order, each returning 1024. -/
theorem C2_overwrite :
    ∃ r5, writeAll ring4096 s3payloads = some r5 ∧
      countFrames 4096 r5.data 8 r5.head r5.len = 3 ∧
      readSeq 3 r5 1024 = some
        [(1024, List.replicate 1024 67), (1024, List.replicate 1024 68),
         (1024, List.replicate 1024 69)] := by
  obtain ⟨r3, hall3, hsz, hro, hh, ht, hdb, hbw, -, hframes⟩ :=
    writeAll_spec
      [List.replicate 1024 65, List.replicate 1024 66, List.replicate 1024 67]
      ring4096 rfl rfl (by norm_num [ring4096]) (by norm_num [ring4096])
      (by
        intro p hp
        simp only [List.mem_cons, List.not_mem_nil, or_false] at hp
        rcases hp with h | h | h <;> subst h <;>
          exact ⟨by simp only [List.length_replicate, ring4096]; norm_num,
            fun b hb => by have := List.eq_of_mem_replicate hb; omega⟩)
      (by
        show ring4096.tail + framedSize _ < ring4096.size
        simp only [framedSize, List.map_cons, List.map_nil, List.sum_cons,
          List.sum_nil, List.length_replicate, uintptrSize, ring4096]
        norm_num)
  obtain ⟨sz, d, hd, tl, ro2, db2, bw2⟩ := r3
  have hsz2 : sz = 4096 := hsz
  have hh2 : hd = 0 := hh
  have hro2 : ro2 = false := hro
  have hdb2 : db2 = false := hdb
  have hbw2 : bw2 = false := hbw
  have ht2 : tl = 3096 := by
    have h : tl = ring4096.tail + framedSize
        [List.replicate 1024 65, List.replicate 1024 66, List.replicate 1024 67] := ht
    simp only [framedSize, List.map_cons, List.map_nil, List.sum_cons,
      List.sum_nil, List.length_replicate, uintptrSize, ring4096] at h
    omega
  subst hsz2 hh2 hro2 hdb2 hbw2 ht2
  have hframes2 : framesAt 4096 d 0
      [List.replicate 1024 65, List.replicate 1024 66, List.replicate 1024 67] :=
    hframes
  simp only [framesAt, List.length_replicate] at hframes2
  obtain ⟨hwA, -, hwB, -, hwC, hbC, -⟩ := hframes2
  have hwA2 : readWord 4096 d 0 = 1024 := hwA
  have hwB2 : readWord 4096 d 1032 = 1024 := by
    have e : (0 + uintptrSize + 1024 : Nat) = 1032 := by norm_num [uintptrSize]
    rw [e] at hwB
    exact hwB
  have hwC2 : readWord 4096 d 2064 = 1024 := by
    have e : (0 + uintptrSize + 1024 + uintptrSize + 1024 : Nat) = 2064 := by
      norm_num [uintptrSize]
    rw [e] at hwC
    exact hwC
  have hbC2 : readBytes 4096 d 2072 1024 = List.replicate 1024 67 := by
    have e : (0 + uintptrSize + 1024 + uintptrSize + 1024 + uintptrSize : Nat)
        = 2072 := by norm_num [uintptrSize]
    rw [e] at hbC
    exact hbC
  obtain ⟨hall45, hreads, hcount⟩ := s3_tail_run d hwA2 hwB2 hwC2 hbC2
  refine ⟨⟨4096, writeWord 4096 (writeRange 4096
        (writeWord 4096 (writeRange 4096 d 3104 (List.replicate 1024 68)) 3096
          (List.replicate 1024 68).length)
        40 (List.replicate 1024 69)) 32 (List.replicate 1024 69).length,
      2064, 1064, false, false, false⟩, ?_, hcount, hreads⟩
  rw [show s3payloads =
      [List.replicate 1024 65, List.replicate 1024 66, List.replicate 1024 67]
      ++ [List.replicate 1024 68, List.replicate 1024 69] from rfl,
    writeAll_append, hall3, Option.some_bind]
  exact hall45

/-- Claim C3, as stated over every ring state, is false: on a ring opened
with `ReadOnlyCursor` the read-only guard fires first, so an oversized write
fails with the read-only error, not `TooLarge`. -/
theorem C3_counterexample :
    (List.replicate 1025 0).length > ring4096ro.size / 4 ∧
    (ring4096ro.Write (List.replicate 1025 0)).isTooLarge = false :=
  ⟨by decide, by decide⟩

/-- Claim C3 (amended: on rings not in read-only-cursor mode): a payload
strictly larger than `N / 4` bytes makes `Write` fail with the too-large
error and return with the ring state — cursor and buffer — untouched. -/
theorem C3_tooLarge (r : Ring) (p : List Nat)
    (hro : r.readOnly = false) (hbig : p.length > r.size / 4) :
    r.Write p = .tooLarge r := by
  unfold Ring.Write
  rw [if_neg (by simp [hro]), if_pos hbig]

/-- Witness for C3_tooLarge at a concrete instance. -/
theorem C3_tooLarge_witness :
    ring4096.readOnly = false ∧
    (List.replicate 1025 0).length > ring4096.size / 4 ∧
    ring4096.Write (List.replicate 1025 0) = .tooLarge ring4096 :=
  ⟨rfl, by decide, C3_tooLarge ring4096 (List.replicate 1025 0) rfl (by decide)⟩

/-- Claim C4: on a non-empty ring whose oldest record is `p`, a `Read` with a
buffer smaller than `|p|` fails with the buffer-too-small error and leaves the
ring (cursor included) exactly as it was; a subsequent `Read` with a buffer of
at least `|p|` bytes returns that same record. -/
theorem C4_bufferTooSmall (r : Ring) (p : List Nat) (small big : Nat)
    (hne : r.len ≠ 0)
    (hw : readWord r.size r.data r.head = p.length)
    (hbytes : readBytes r.size r.data (r.head + uintptrSize) p.length = p)
    (hp63 : p.length < 2 ^ 63)
    (hsmall : small < p.length) (hbig : p.length ≤ big)
    (hpanic : ¬ 2 * r.size < r.head + uintptrSize + p.length) :
    r.Read small = .bufferTooSmall r ∧
    ∃ r2, r.Read big = .ok p.length p r2 ∧ r2.size = r.size ∧
      r2.tail = r.tail ∧ r2.data = r.data := by
  have hadv := advanceHead_ok r hne
  rw [hw] at hadv
  constructor
  · unfold Ring.Read
    rw [if_neg hne]
    simp only [hw]
    rw [int64OfWord_small _ hp63, if_pos (by exact_mod_cast hsmall)]
  · refine ⟨{ r with head := ((r.head + p.length + uintptrSize) % 2 ^ 64) % r.size },
      ?_, rfl, rfl, rfl⟩
    unfold Ring.Read
    rw [if_neg hne]
    simp only [hw]
    rw [int64OfWord_small _ hp63, if_neg (not_lt.mpr (by exact_mod_cast hbig)),
      if_neg (by simpa using hpanic), hadv]
    rw [Nat.min_eq_right hbig, hbytes]

/-- Witness for C4_bufferTooSmall at a concrete instance. -/
theorem C4_bufferTooSmall_witness :
    c4ring.len ≠ 0 ∧
    (c4ring.Read 1 = .bufferTooSmall c4ring ∧
      ∃ r2, c4ring.Read 16 = .ok 3 [5, 6, 7] r2 ∧ r2.size = c4ring.size ∧
        r2.tail = c4ring.tail ∧ r2.data = c4ring.data) :=
  ⟨by decide, C4_bufferTooSmall c4ring [5, 6, 7] 1 16 (by decide) (by decide)
    (by decide) (by decide) (by decide) (by decide) (by decide)⟩

/-- Claim C5 describes the empty-ring read in the default mode as failing
with `EOF`; the code instead blocks on the wakeup channel: the empty branch
of `Read` never returns and never consults `dontBlockReads`. -/
theorem C5_read_blocks (r : Ring) (bufLen : Nat)
    (hdb : r.dontBlockReads = false) (hused : r.len = 0) :
    r.Read bufLen = .blocked := by
  unfold Ring.Read
  rw [if_pos hused]

/-- Witness for C5_read_blocks at a concrete instance (the third read of
scenario S1 lands on an empty ring like this one). -/
theorem C5_read_blocks_witness :
    ring4096.dontBlockReads = false ∧ ring4096.len = 0 ∧
    ring4096.Read 1024 = .blocked :=
  ⟨rfl, by decide, C5_read_blocks ring4096 1024 rfl (by decide)⟩

/-- Claim C6, as stated, is false: the head bump is computed on `uintptr`, so
it wraps modulo `2 ^ 64` before the reduction modulo `N`.  On a recovered
three-page ring whose length word reads `2 ^ 64 - 1`, the code lands the head
on 7 while the spec formula `(head + P + L) mod N` lands it on 4103. -/
theorem C6_counterexample :
    garbageRing.len ≠ 0 ∧
    advHeadResult garbageRing.advanceHead = some 7 ∧
    (garbageRing.head + uintptrSize
      + readWord garbageRing.size garbageRing.data garbageRing.head)
      % garbageRing.size = 4103 :=
  ⟨by decide, by decide, by decide⟩

/-- Claim C6 (amended: on 64-bit hosts the bump is
`((head + L + P) mod 2 ^ 64) mod N`): `advanceHead` fails with the empty
error exactly when `used = 0`, and otherwise moves only the head, to
`((head + L + P) mod 2 ^ 64) mod N` where `L` is the machine word at the
head. -/
theorem C6_advanceHead (r : Ring) :
    (r.advanceHead = .error .eof ↔ r.len = 0) ∧
    (r.len ≠ 0 → r.advanceHead = .ok { r with
      head := ((r.head + readWord r.size r.data r.head + uintptrSize) % 2 ^ 64)
        % r.size }) := by
  constructor
  · constructor
    · intro h
      by_contra hne
      rw [advanceHead_ok r hne] at h
      exact Except.noConfusion h
    · exact advanceHead_err r
  · exact advanceHead_ok r

/-- Witness for C6_advanceHead at a concrete instance. -/
theorem C6_advanceHead_witness :
    garbageRing.len ≠ 0 ∧
    garbageRing.advanceHead = .ok { garbageRing with
      head := ((garbageRing.head
        + readWord garbageRing.size garbageRing.data garbageRing.head
        + uintptrSize) % 2 ^ 64) % garbageRing.size } :=
  ⟨by decide, (C6_advanceHead garbageRing).2 (by decide)⟩

/-- Claim C7: the cursor invariant `head < N ∧ tail < N` holds on a freshly
constructed ring and is preserved by every operation that hands a ring back:
`advanceHead`, `Write` (all returning paths), `Read` (all returning paths)
and `Reset`. -/
theorem C7_cursor_invariant (r r2 : Ring) (hN : 0 < r.size)
    (hh : r.head < r.size) (ht : r.tail < r.size) :
    (∀ fs d r0, New fs d = some r0 → 0 < r0.size →
      r0.head < r0.size ∧ r0.tail < r0.size) ∧
    (r.advanceHead = .ok r2 → r2.head < r2.size ∧ r2.tail < r2.size) ∧
    (∀ p, (r.Write p).ringOf = some r2 → r2.head < r2.size ∧ r2.tail < r2.size) ∧
    (∀ bufLen, (r.Read bufLen).ringOf = some r2 →
      r2.head < r2.size ∧ r2.tail < r2.size) ∧
    (r.Reset.head < r.Reset.size ∧ r.Reset.tail < r.Reset.size) := by
  refine ⟨?_, ?_, ?_, ?_, ?_⟩
  · intro fs d r0 hnew h0
    have he := NewWithOptions_noHeader fs d (0, 0) false false r0 hnew
    subst he
    exact ⟨h0, h0⟩
  · intro hadv
    obtain ⟨hsz, hhd, htl⟩ := advanceHead_inv r r2 hN hadv
    exact ⟨by omega, by omega⟩
  · intro p h
    obtain ⟨hsz, hhd, htl⟩ := Write_cursor_inv r p r2 hN hh ht h
    exact ⟨by omega, by omega⟩
  · intro bufLen h
    obtain ⟨hsz, hhd, htl⟩ := Read_cursor_inv r bufLen r2 hN hh h
    exact ⟨by omega, by omega⟩
  · exact ⟨hN, hN⟩

/-- Witness for C7_cursor_invariant at a concrete instance. -/
theorem C7_cursor_invariant_witness :
    0 < ring4096.size ∧
    (ring4096.Reset.head < ring4096.Reset.size ∧
      ring4096.Reset.tail < ring4096.Reset.size) :=
  ⟨by decide,
    (C7_cursor_invariant ring4096 ring4096 (by decide) (by decide) (by decide)).2.2.2.2⟩

/-- Claim C8: for cursors inside the ring, the case split of `len()` computes
the reference `used = (tail - head) mod N` of the spec, and `freeBytes()`
computes `N - used`. -/
theorem C8_len_refines_usedSpec (r : Ring) (hh : r.head < r.size)
    (ht : r.tail < r.size) :
    r.len = usedSpec r ∧ r.freeBytes = r.size - usedSpec r := by
  have h := len_eq_usedSpec r hh ht
  refine ⟨h, ?_⟩
  unfold Ring.freeBytes
  rw [h]

/-- Witness for C8_len_refines_usedSpec on a wrapped cursor. -/
theorem C8_len_refines_usedSpec_witness :
    c8ring.head < c8ring.size ∧
    (c8ring.len = usedSpec c8ring ∧
      c8ring.freeBytes = c8ring.size - usedSpec c8ring) :=
  ⟨by decide, C8_len_refines_usedSpec c8ring (by decide) (by decide)⟩

/-- Claim C9 says no `Write` completes while `blockWrites` is set; in the
code the flag is written by `BlockWrites`/`UnblockWrites` but never read by
`Write`, so a write right after `BlockWrites` completes, appends its record
and bumps the tail, with the flag still set. -/
theorem C9_blockWrites_ignored (r : Ring) (p : List Nat)
    (hro : r.readOnly = false) (hN : 16 ≤ r.size) (hNw : r.size < 2 ^ 64)
    (hp4 : p.length ≤ r.size / 4) (hh : r.head = 0)
    (hfit : r.tail + (p.length + uintptrSize) < r.size) :
    ∃ r2, (r.BlockWrites).Write p = .ok p.length r2 ∧
      r2.blockWrites = true ∧ r2.tail = r.tail + uintptrSize + p.length := by
  have hw := Write_fits r.BlockWrites p hro hN hNw hp4 hh hfit
  exact ⟨_, hw, rfl, rfl⟩

/-- Witness for C9_blockWrites_ignored at a concrete instance. -/
theorem C9_blockWrites_ignored_witness :
    ring4096.readOnly = false ∧
    ∃ r2, (ring4096.BlockWrites).Write [1, 2, 3] = .ok 3 r2 ∧
      r2.blockWrites = true ∧ r2.tail = ring4096.tail + uintptrSize + 3 :=
  ⟨rfl, C9_blockWrites_ignored ring4096 [1, 2, 3] rfl (by decide) (by decide)
    (by decide) rfl (by decide)⟩

/-- Claim C10: a ring opened with `ReadOnlyCursor: true` and no header page
(`ReserveHeader: false`) rejects every `Write` with the read-only error: the
flag is copied into the ring unconditionally, independent of the header
configuration. -/
theorem C10_readonly_cursor (fileSize : Nat) (d : Nat → Nat) (hc : Nat × Nat)
    (dbr : Bool) (r : Ring) (p : List Nat)
    (hnew : NewWithOptions fileSize d hc
      { reserveHeader := false, readOnlyCursor := true, dontBlockReads := dbr }
      = some r) :
    r.Write p = .readOnlyErr r := by
  have hro : r.readOnly = true := by
    have he := NewWithOptions_noHeader fileSize d hc true dbr r hnew
    subst he
    rfl
  unfold Ring.Write
  rw [if_pos hro]

/-- Witness for C10_readonly_cursor at a concrete instance. -/
theorem C10_readonly_cursor_witness :
    NewWithOptions 4096 (fun _ => 0) (0, 0)
      { reserveHeader := false, readOnlyCursor := true, dontBlockReads := false }
      = some ring4096ro ∧
    ring4096ro.Write [1] = .readOnlyErr ring4096ro :=
  ⟨rfl, C10_readonly_cursor 4096 (fun _ => 0) (0, 0) false ring4096ro [1] rfl⟩

end Diskring
